import Mathlib

/-!
Verification of the COSMOS2 task-lifecycle core (`cosmos/models/Task.py`).

The development shallowly embeds the task state machine of `Task.py`:

* `TaskStatus` / `StageStatus` mirror the status enums used by the module.
* `Task` carries the lifecycle columns of the `Task` ORM class
  (`_status`, `successful`, `started_on`, `submitted_on`, `finished_on`,
  `attempt`, `must_succeed`, `NOOP`, `log_dir`, `_cache_profile`).
* `World` is the mutable state touched by the status-change dispatcher:
  the owning stage's status, the stage's task list (the subject task is
  `tasks[i]`), and a trace of observable side effects (log lines, bounded
  file waits, file reads) in the order they are performed.
* `set_status` is the property setter of `Task.status` (lines 183-193):
  a no-op when the value is unchanged, otherwise it stores the value and
  sends `signal_task_status_change`, i.e. invokes `task_status_changed`.
* `task_status_changed` is the dispatcher (lines 47-88).  The retry branch
  assigns `task.status = TaskStatus.no_attempt`, which re-enters the same
  setter; the mutual recursion below reproduces that re-entry literally
  (it terminates because the re-entrant target is `no_attempt`).
* `Task.profile` is the memoized profile-ingestion property (lines 238-249).
* `successors`/`reachSet` model the graph traversal of line 255-259.

Timestamps (`func.now()`) are modelled by an explicit `now : Nat` argument;
`Execution.max_attempts` by `mA : Nat`.  `wait_for_file` (a helper that is
out of the embedded module) is modelled from the spec: a bounded wait that
records a `waitFile` effect and reports whether the file appeared, never
raising on timeout; the dispatcher's terminal-failure branch ignores that
boolean, exactly as line 74 discards the helper's return value.
-/

namespace Cosmos

/-- Task lifecycle statuses used by `Task.py`. -/
inductive TaskStatus where
  | no_attempt | waiting | submitted | successful | failed
  deriving DecidableEq, Repr

/-- Stage statuses used by `Task.py`. -/
inductive StageStatus where
  | no_attempt | running | successful | failed
  deriving DecidableEq, Repr

/-- Parsed JSON profile payload (a flat string-to-number object). -/
abbrev ProfileData := List (String × Int)

/-- Observable side effects of the dispatcher and of profile ingestion,
in execution order: log lines (`task.log.info/warn/error`), bounded waits
for a file (`wait_for_file`), and file reads (`open`/`json.load`). -/
inductive Effect where
  | logInfoStatus
  | logInfoSubmitted
  | logWarnTolerated
  | logWarnPrintout
  | logWarnAttemptFailed (attempt maxAttempts : Nat)
  | logErrorTooMany
  | logWarnProfileMissing
  | waitFile (path : String) (timeout : Nat)
  | readFile (path : String)
  deriving DecidableEq, Repr

/-- The lifecycle fields of the `Task` ORM class (`Task.py` lines 108-193). -/
structure Task where
  NOOP : Bool := false
  log_dir : String := ""
  _status : TaskStatus := .no_attempt
  successful : Bool := false
  started_on : Option Nat := none
  submitted_on : Option Nat := none
  finished_on : Option Nat := none
  attempt : Nat := 1
  must_succeed : Bool := true
  drm : String := ""
  drm_jobID : Option Nat := none
  _cache_profile : Option ProfileData := none
  deriving DecidableEq, Repr

/-- The state mutated by a dispatch: the owning stage's status, the stage's
task list, and the trace of side effects performed so far. -/
structure World where
  stageStatus : StageStatus
  tasks : List Task
  effects : List Effect
  deriving DecidableEq, Repr

def World.addEffect (w : World) (e : Effect) : World :=
  { w with effects := w.effects ++ [e] }

def World.setTask (w : World) (i : Nat) (t : Task) : World :=
  { w with tasks := w.tasks.set i t }

/-- Helper `logplus` (`Task.py` lines 96-98): per-attempt artifact path
`log_dir/<stem>_attempt<attempt><ext>`. -/
def logplus (stem ext : String) (t : Task) : String :=
  t.log_dir ++ "/" ++ stem ++ "_attempt" ++ toString t.attempt ++ ext

def output_profile_path (t : Task) : String := logplus "profile" ".json" t
def output_command_script_path (t : Task) : String := logplus "command" ".bash" t
def output_stderr_path (t : Task) : String := logplus "stderr" ".txt" t
def output_stdout_path (t : Task) : String := logplus "stdout" ".txt" t

/-- The stage-success check of line 85:
`all(t.successful or not t.must_succeed for t in task.stage.tasks)`. -/
def stageSuccessPred (ts : List Task) : Bool :=
  ts.all fun t => t.successful || !t.must_succeed

/-- Termination measure for the setter/dispatcher recursion: the only
re-entrant status assignment is `failed → no_attempt`. -/
def statusRank : TaskStatus → Nat
  | .failed => 1
  | _ => 0

mutual

/-- The `Task.status` property setter (`Task.py` lines 183-193): if the new
value differs from the stored one, store it and send
`signal_task_status_change`, which runs `task_status_changed` on the
updated task.  Otherwise do nothing. -/
def set_status (mA now : Nat) (wres : Bool) (w : World) (i : Nat) (value : TaskStatus) : World :=
  match w.tasks[i]? with
  | none => w
  | some t =>
    if t._status = value then w
    else task_status_changed mA now wres (w.setTask i { t with _status := value }) i value
termination_by 2 * statusRank value + 1

/-- The status-change dispatcher (`Task.py` lines 47-88).  `st` is the status
that was just stored by the setter (it equals `task.status` at dispatch
time).  `mA` is `Execution.max_attempts`, `now` the current time, `wres`
the (discarded) result of `wait_for_file` in the terminal-failure branch. -/
def task_status_changed (mA now : Nat) (wres : Bool) (w : World) (i : Nat) (st : TaskStatus) : World :=
  match w.tasks[i]? with
  | none => w
  | some t =>
    -- lines 49-51: `if task.status in [TaskStatus.successful]: ... log.info`
    let w1 := if st = .successful ∧ t.NOOP = false then w.addEffect .logInfoStatus else w
    match st with
    | .waiting =>
      -- lines 53-54
      w1.setTask i { t with started_on := some now }
    | .submitted =>
      -- lines 56-60
      let w2 := if t.NOOP = false then w1.addEffect .logInfoSubmitted else w1
      { w2.setTask i { t with submitted_on := some now } with stageStatus := .running }
    | .failed =>
      if t.must_succeed = false then
        -- lines 63-66
        ((w1.addEffect .logWarnTolerated).addEffect .logWarnPrintout).setTask i
          { t with finished_on := some now }
      else
        -- line 68
        let w2 := w1.addEffect (.logWarnAttemptFailed t.attempt mA)
        if t.attempt < mA then
          -- lines 70-72: warn, bump `attempt`, then `task.status = no_attempt`
          -- through the property setter (re-entrant signal)
          let w3 := (w2.addEffect .logWarnPrintout).setTask i { t with attempt := t.attempt + 1 }
          set_status mA now wres w3 i .no_attempt
        else
          -- lines 74-79: bounded wait for the stderr artifact (result
          -- discarded), warn, mark finished, fail the stage
          let w3 := w2.addEffect (.waitFile (output_stderr_path t) 60)
          let w4 := (w3.addEffect .logWarnPrintout).addEffect .logErrorTooMany
          { w4.setTask i { t with finished_on := some now } with stageStatus := .failed }
    | .successful =>
      -- lines 82-86
      let t2 : Task := { t with successful := true, finished_on := some now }
      let w2 := w1.setTask i t2
      if stageSuccessPred w2.tasks then { w2 with stageStatus := .successful } else w2
    | .no_attempt =>
      -- no dispatcher branch matches `no_attempt`: only the (skipped)
      -- line 49-51 logging guard ran
      w1
termination_by 2 * statusRank st
decreasing_by
  all_goals simp [statusRank]

end

/-- The memoized `Task.profile` property (`Task.py` lines 238-249), as a
function of the external world: `fileAppeared` is the result of
`wait_for_file(..., 60, error=False)` (modelled from the spec: a bounded
wait that returns whether the file exists, never raising), and `contents`
is the outcome of `open`/`json.load` when the file is read (`Except.error`
models a JSON parse failure propagating to the caller).  Returns the
result, the task (with the memo cache possibly filled), and the effects
performed. -/
def Task.profile (t : Task) (fileAppeared : Bool) (contents : Except String ProfileData) :
    Except String ProfileData × Task × List Effect :=
  if t.NOOP then (.ok [], t, [])
  else
    match t._cache_profile with
    | none =>
      if fileAppeared then
        match contents with
        | .ok p =>
          (.ok p, { t with _cache_profile := some p },
            [.waitFile (output_profile_path t) 60, .readFile (output_profile_path t)])
        | .error e =>
          (.error e, t,
            [.waitFile (output_profile_path t) 60, .readFile (output_profile_path t)])
      else
        (.ok [], t, [.waitFile (output_profile_path t) 60, .logWarnProfileMissing])
    | some p => (.ok p, t, [])

section Graph

variable {V : Type} [DecidableEq V]

/-- The child-edge relation of the task graph: `v` is a child of `u`. -/
def Edge (g : V → List V) (u v : V) : Prop := v ∈ g u

/-- Transitive reachability along child edges. -/
def Reach (g : V → List V) : V → V → Prop := Relation.ReflTransGen (Edge g)

/-- One breadth-first expansion level: the current set together with all
children of its members. -/
def expandChildren (g : V → List V) (s : Finset V) : Finset V :=
  s ∪ s.biUnion fun v => (g v).toFinset

/-- All vertices reachable from `t` by breadth-first expansion; iterating
`Fintype.card V` levels saturates the traversal. -/
def reachSet [Fintype V] (g : V → List V) (t : V) : Finset V :=
  (expandChildren g)^[Fintype.card V] {t}

/-- Function `Task.successors` (`Task.py` lines 255-259):
`set(chain(*bfs_successors(task_graph, self).values()))`.  The values of
`networkx.bfs_successors` rooted at `t` enumerate every vertex the
breadth-first traversal discovers from `t`, each exactly once, excluding
the root itself; chained into a `set` this is the set of descendants of
`t`, deduplicated. -/
def successors [Fintype V] (g : V → List V) (t : V) : Finset V :=
  (reachSet g t).erase t

end Graph

/-- A freshly created task (`Task.py` column defaults, lines 127-133):
status `no_attempt`, not successful, first attempt, no finish timestamp. -/
def initialTask (t : Task) : Prop :=
  t._status = .no_attempt ∧ t.successful = false ∧ t.attempt = 1 ∧ t.finished_on = none

/-- Modelled from the spec: one call of the external scheduler/monitor loop
(not under `src/`; §2 control flow) into the state machine.  The loop
starts a queued task (`no_attempt → waiting`), submits a started task
(`waiting → submitted`), and reports an observed completion of a submitted
task (`submitted → successful` or `submitted → failed`), always through
the `set_status` transition contract. -/
inductive LifeStep (mA : Nat) : World → World → Prop where
  | to_waiting (w : World) (i : Nat) (t : Task) (now : Nat) (wres : Bool) :
      w.tasks[i]? = some t → t._status = .no_attempt →
      LifeStep mA w (set_status mA now wres w i .waiting)
  | to_submitted (w : World) (i : Nat) (t : Task) (now : Nat) (wres : Bool) :
      w.tasks[i]? = some t → t._status = .waiting →
      LifeStep mA w (set_status mA now wres w i .submitted)
  | to_successful (w : World) (i : Nat) (t : Task) (now : Nat) (wres : Bool) :
      w.tasks[i]? = some t → t._status = .submitted →
      LifeStep mA w (set_status mA now wres w i .successful)
  | to_failed (w : World) (i : Nat) (t : Task) (now : Nat) (wres : Bool) :
      w.tasks[i]? = some t → t._status = .submitted →
      LifeStep mA w (set_status mA now wres w i .failed)

/-- Worlds reachable from a freshly built stage (all tasks in their
creation state, stage status at its default) by external scheduler calls. -/
inductive ReachableW (mA : Nat) : World → Prop where
  | init (ts : List Task) : (∀ t ∈ ts, initialTask t) →
      ReachableW mA { stageStatus := .no_attempt, tasks := ts, effects := [] }
  | step (w w' : World) : ReachableW mA w → LifeStep mA w w' → ReachableW mA w'

/-- The task update of the dispatcher's `successful` branch (lines 83-84). -/
def markSuccess (now : Nat) (t : Task) : Task :=
  { t with _status := .successful, successful := true, finished_on := some now }

/-- Applies `k` consecutive `failed` dispatches on task `i` (each one re-queued by the
retry policy before the next failure is observed). -/
def failTimes (mA : Nat) (w : World) (i : Nat) : Nat → World
  | 0 => w
  | k + 1 => set_status mA 0 true (failTimes mA w i k) i .failed

/-- Dispatch a `successful` transition for each task index in `L`, in order:
one completion order of the stage's tasks. -/
def applyAll (mA now : Nat) (L : List Nat) (w : World) : World :=
  L.foldl (fun acc j => set_status mA now true acc j .successful) w

/-- Every task of `ts` is successful or tolerated, once all tasks whose index
lies in `L` have additionally been marked successful.  This is the
stage-success condition after the completions in `L`, and it depends on `L`
only through membership. -/
def predMarked (L : List Nat) (ts : List Task) : Prop :=
  ∀ j t, ts[j]? = some t → j ∈ L ∨ t.successful = true ∨ t.must_succeed = false

/-- The `finished_on` invariant: the finish timestamp is set exactly on the
terminal statuses — `successful`, or `failed` when the failure is tolerated
(`must_succeed = false`) or the attempts are exhausted. -/
def finishedInv (mA : Nat) (t : Task) : Prop :=
  t.finished_on ≠ none ↔
    (t._status = .successful ∨
      (t._status = .failed ∧ (t.must_succeed = false ∨ mA ≤ t.attempt)))

/-- Concrete task graph on four vertices: edges A→B, A→C, B→D
(A = 0, B = 1, C = 2, D = 3). -/
def exGraph : Fin 4 → List (Fin 4)
  | 0 => [1, 2]
  | 1 => [3]
  | _ => []

/-- A must-succeed task that has exhausted its attempts and was finalized. -/
def tExhausted : Task :=
  { _status := .failed, must_succeed := true, attempt := 3, finished_on := some 1 }

/-- A sibling task still mid-flight while its stage is already failed. -/
def tMidflight : Task := { _status := .waiting }

/-- A stage that reached the terminal `failed` status with a sibling task
still waiting to be submitted. -/
def wFailedStage : World :=
  { stageStatus := .failed, tasks := [tExhausted, tMidflight], effects := [] }

/-! ## Single-step characterizations of the setter/dispatcher -/

theorem set_status_of_none (mA now : Nat) (wres : Bool) (w : World) (i : Nat)
    (value : TaskStatus) (h : w.tasks[i]? = none) :
    set_status mA now wres w i value = w := by
  rw [set_status, h]

theorem set_status_self (mA now : Nat) (wres : Bool) (w : World) (i : Nat) (t : Task)
    (h : w.tasks[i]? = some t) (hv : t._status = value) :
    set_status mA now wres w i value = w := by
  rw [set_status, h]
  simp [hv]

theorem set_status_of_ne (mA now : Nat) (wres : Bool) (w : World) (i : Nat) (t : Task)
    (value : TaskStatus) (h : w.tasks[i]? = some t) (hv : t._status ≠ value) :
    set_status mA now wres w i value =
      task_status_changed mA now wres (w.setTask i { t with _status := value }) i value := by
  rw [set_status, h]
  simp [hv]

theorem getTask_setTask_self (w : World) (i : Nat) (t : Task)
    (hi : i < w.tasks.length) : (w.setTask i t).tasks[i]? = some t := by
  simp [World.setTask, List.getElem?_set_self hi]

theorem set_status_waiting_spec (mA now : Nat) (wres : Bool) (w : World) (i : Nat) (t : Task)
    (h : w.tasks[i]? = some t) (hv : t._status ≠ .waiting) :
    set_status mA now wres w i .waiting =
      { w with tasks := w.tasks.set i { t with _status := .waiting, started_on := some now } } := by
  have hi : i < w.tasks.length := (List.getElem?_eq_some.mp h).1
  simp [set_status.eq_def, task_status_changed.eq_def, h, hv, World.setTask, World.addEffect,
    List.set_set, List.getElem?_set_self, List.length_set, hi]

theorem set_status_no_attempt_spec (mA now : Nat) (wres : Bool) (w : World) (i : Nat) (t : Task)
    (h : w.tasks[i]? = some t) (hv : t._status ≠ .no_attempt) :
    set_status mA now wres w i .no_attempt =
      { w with tasks := w.tasks.set i { t with _status := .no_attempt } } := by
  have hi : i < w.tasks.length := (List.getElem?_eq_some.mp h).1
  simp [set_status.eq_def, task_status_changed.eq_def, h, hv, World.setTask, World.addEffect,
    List.set_set, List.getElem?_set_self, List.length_set, hi]

theorem set_status_submitted_spec (mA now : Nat) (wres : Bool) (w : World) (i : Nat) (t : Task)
    (h : w.tasks[i]? = some t) (hv : t._status ≠ .submitted) :
    set_status mA now wres w i .submitted =
      { stageStatus := .running,
        tasks := w.tasks.set i { t with _status := .submitted, submitted_on := some now },
        effects := w.effects ++ if t.NOOP then [] else [.logInfoSubmitted] } := by
  have hi : i < w.tasks.length := (List.getElem?_eq_some.mp h).1
  cases hN : t.NOOP <;>
    simp [set_status.eq_def, task_status_changed.eq_def, h, hv, hN, World.setTask,
      World.addEffect, List.set_set, List.getElem?_set_self, List.length_set, hi]

theorem set_status_successful_spec_pos (mA now : Nat) (wres : Bool) (w : World) (i : Nat)
    (t : Task) (h : w.tasks[i]? = some t) (hv : t._status ≠ .successful)
    (hp : stageSuccessPred (w.tasks.set i (markSuccess now t)) = true) :
    set_status mA now wres w i .successful =
      { stageStatus := .successful,
        tasks := w.tasks.set i (markSuccess now t),
        effects := w.effects ++ if t.NOOP then [] else [.logInfoStatus] } := by
  have hi : i < w.tasks.length := (List.getElem?_eq_some.mp h).1
  cases hN : t.NOOP <;>
  · simp only [markSuccess, hN] at hp
    simp [set_status.eq_def, task_status_changed.eq_def, h, hv, hN, hp, markSuccess,
      World.setTask, World.addEffect, List.set_set, List.getElem?_set_self, List.length_set, hi]

theorem set_status_successful_spec_neg (mA now : Nat) (wres : Bool) (w : World) (i : Nat)
    (t : Task) (h : w.tasks[i]? = some t) (hv : t._status ≠ .successful)
    (hp : stageSuccessPred (w.tasks.set i (markSuccess now t)) = false) :
    set_status mA now wres w i .successful =
      { stageStatus := w.stageStatus,
        tasks := w.tasks.set i (markSuccess now t),
        effects := w.effects ++ if t.NOOP then [] else [.logInfoStatus] } := by
  have hi : i < w.tasks.length := (List.getElem?_eq_some.mp h).1
  cases hN : t.NOOP <;>
  · simp only [markSuccess, hN] at hp
    simp [set_status.eq_def, task_status_changed.eq_def, h, hv, hN, hp, markSuccess,
      World.setTask, World.addEffect, List.set_set, List.getElem?_set_self, List.length_set, hi]

theorem set_status_failed_tolerated_spec (mA now : Nat) (wres : Bool) (w : World) (i : Nat)
    (t : Task) (h : w.tasks[i]? = some t) (hv : t._status ≠ .failed)
    (hm : t.must_succeed = false) :
    set_status mA now wres w i .failed =
      { stageStatus := w.stageStatus,
        tasks := w.tasks.set i { t with _status := .failed, finished_on := some now },
        effects := w.effects ++ [.logWarnTolerated, .logWarnPrintout] } := by
  have hi : i < w.tasks.length := (List.getElem?_eq_some.mp h).1
  simp [set_status.eq_def, task_status_changed.eq_def, h, hv, hm, World.setTask,
    World.addEffect, List.set_set, List.getElem?_set_self, List.length_set, hi]

theorem set_status_failed_retry_spec (mA now : Nat) (wres : Bool) (w : World) (i : Nat)
    (t : Task) (h : w.tasks[i]? = some t) (hv : t._status ≠ .failed)
    (hm : t.must_succeed = true) (ha : t.attempt < mA) :
    set_status mA now wres w i .failed =
      { stageStatus := w.stageStatus,
        tasks := w.tasks.set i { t with _status := .no_attempt, attempt := t.attempt + 1 },
        effects := w.effects ++ [.logWarnAttemptFailed t.attempt mA, .logWarnPrintout] } := by
  have hi : i < w.tasks.length := (List.getElem?_eq_some.mp h).1
  simp [set_status.eq_def, task_status_changed.eq_def, h, hv, hm, ha, World.setTask,
    World.addEffect, List.set_set, List.getElem?_set_self, List.length_set, hi]

theorem set_status_failed_final_spec (mA now : Nat) (wres : Bool) (w : World) (i : Nat)
    (t : Task) (h : w.tasks[i]? = some t) (hv : t._status ≠ .failed)
    (hm : t.must_succeed = true) (ha : ¬ t.attempt < mA) :
    set_status mA now wres w i .failed =
      { stageStatus := .failed,
        tasks := w.tasks.set i { t with _status := .failed, finished_on := some now },
        effects := w.effects ++ [.logWarnAttemptFailed t.attempt mA,
          .waitFile (output_stderr_path t) 60, .logWarnPrintout, .logErrorTooMany] } := by
  have hi : i < w.tasks.length := (List.getElem?_eq_some.mp h).1
  simp [set_status.eq_def, task_status_changed.eq_def, h, hv, hm, ha, World.setTask,
    World.addEffect, List.set_set, List.getElem?_set_self, List.length_set, hi,
    output_stderr_path, logplus]

theorem failTimes_attempt (mA : Nat) (w : World) (i : Nat) (t : Task)
    (h : w.tasks[i]? = some t) (hs : t._status = .no_attempt) (hm : t.must_succeed = true)
    (ha : t.attempt = 1) :
    ∀ k, k < mA →
      (failTimes mA w i k).tasks[i]? =
        some { t with _status := .no_attempt, attempt := k + 1 } := by
  intro k
  induction k with
  | zero =>
    intro _
    rw [failTimes, h]
    cases t
    simp_all
  | succ k ih =>
    intro hk
    have ih2 := ih (Nat.lt_of_succ_lt hk)
    have hlen : i < (failTimes mA w i k).tasks.length := (List.getElem?_eq_some.mp ih2).1
    rw [failTimes, set_status_failed_retry_spec mA 0 true (failTimes mA w i k) i
      { t with _status := .no_attempt, attempt := k + 1 } ih2 (by simp) (by simp [hm])
      (by simpa using hk)]
    simp [List.getElem?_set_self hlen]

theorem predMarked_mono {L L2 : List Nat} {ts : List Task} (hsub : ∀ j ∈ L, j ∈ L2)
    (hp : predMarked L ts) : predMarked L2 ts := by
  intro j t hjt
  rcases hp j t hjt with hL | hrest
  · exact Or.inl (hsub j hL)
  · exact Or.inr hrest

theorem stageSuccessPred_iff_predMarked (ts : List Task) :
    stageSuccessPred ts = true ↔ predMarked [] ts := by
  rw [stageSuccessPred, List.all_eq_true]
  constructor
  · intro hall j t hjt
    have hm : t ∈ ts := List.mem_iff_getElem?.mpr ⟨j, hjt⟩
    have := hall t hm
    simp only [Bool.or_eq_true, Bool.not_eq_true'] at this
    exact Or.inr this
  · intro hp t hm
    rcases List.mem_iff_getElem?.mp hm with ⟨j, hjt⟩
    rcases hp j t hjt with hL | hrest
    · simp at hL
    · simp only [Bool.or_eq_true, Bool.not_eq_true']
      exact hrest

theorem predMarked_cons_iff (hIdx : Nat) (L : List Nat) (ts : List Task) (t0 : Task)
    (h : ts[hIdx]? = some t0) (m : Task) (hm : m.successful = true) :
    predMarked (hIdx :: L) ts ↔ predMarked L (ts.set hIdx m) := by
  have hlen : hIdx < ts.length := (List.getElem?_eq_some.mp h).1
  constructor
  · intro hp j t hjt
    rcases eq_or_ne hIdx j with rfl | hne
    · rw [List.getElem?_set_self hlen] at hjt
      cases hjt
      exact Or.inr (Or.inl hm)
    · rw [List.getElem?_set_ne hne] at hjt
      rcases hp j t hjt with hL | hrest
      · rcases List.mem_cons.mp hL with rfl | hL2
        · exact absurd rfl hne
        · exact Or.inl hL2
      · exact Or.inr hrest
  · intro hp j t hjt
    rcases eq_or_ne hIdx j with rfl | hne
    · exact Or.inl (List.mem_cons_self _ _)
    · have := hp j t (by rw [List.getElem?_set_ne hne]; exact hjt)
      rcases this with hL | hrest
      · exact Or.inl (List.mem_cons_of_mem _ hL)
      · exact Or.inr hrest

theorem applyAll_stage (mA now : Nat) :
    ∀ (L : List Nat) (w : World),
      (∀ j ∈ L, ∃ t, w.tasks[j]? = some t ∧ t._status ≠ .successful) → L.Nodup →
      ((¬ predMarked L w.tasks → (applyAll mA now L w).stageStatus = w.stageStatus)
       ∧ (L ≠ [] → predMarked L w.tasks → (applyAll mA now L w).stageStatus = .successful)) := by
  intro L
  induction L with
  | nil =>
    intro w _ _
    exact ⟨fun _ => rfl, fun hne _ => absurd rfl hne⟩
  | cons hIdx rest ih =>
    intro w hval hnd
    obtain ⟨t0, ht0, hts0⟩ := hval hIdx (List.mem_cons_self _ _)
    have hlen : hIdx < w.tasks.length := (List.getElem?_eq_some.mp ht0).1
    have hnotmem : hIdx ∉ rest := (List.nodup_cons.mp hnd).1
    have hndr : rest.Nodup := (List.nodup_cons.mp hnd).2
    have happ : applyAll mA now (hIdx :: rest) w =
        applyAll mA now rest (set_status mA now true w hIdx .successful) := by
      simp [applyAll, List.foldl_cons]
    have hbr : predMarked (hIdx :: rest) w.tasks ↔
        predMarked rest (w.tasks.set hIdx (markSuccess now t0)) :=
      predMarked_cons_iff hIdx rest w.tasks t0 ht0 (markSuccess now t0) rfl
    cases hp : stageSuccessPred (w.tasks.set hIdx (markSuccess now t0)) with
    | true =>
      have hw1 := set_status_successful_spec_pos mA now true w hIdx t0 ht0 hts0 hp
      have hpm1 : predMarked [] (w.tasks.set hIdx (markSuccess now t0)) :=
        (stageSuccessPred_iff_predMarked _).mp hp
      have hpmrest : predMarked rest (w.tasks.set hIdx (markSuccess now t0)) :=
        predMarked_mono (by intro j hj; cases hj) hpm1
      have hpmcons : predMarked (hIdx :: rest) w.tasks := hbr.mpr hpmrest
      refine ⟨fun hnp => absurd hpmcons hnp, fun _ _ => ?_⟩
      rcases List.eq_nil_or_concat rest with rfl | hne2
      · rw [happ, hw1]
        rfl
      · have hval1 : ∀ j ∈ rest, ∃ t,
            (set_status mA now true w hIdx .successful).tasks[j]? = some t ∧
            t._status ≠ .successful := by
          intro j hj
          have hne : hIdx ≠ j := fun hEq => hnotmem (hEq ▸ hj)
          obtain ⟨t, ht, hts⟩ := hval j (List.mem_cons_of_mem _ hj)
          exact ⟨t, by rw [hw1]; simpa [List.getElem?_set_ne hne] using ht, hts⟩
        have ihres := ih (set_status mA now true w hIdx .successful) hval1 hndr
        rw [happ]
        refine ihres.2 ?_ ?_
        · rcases hne2 with ⟨l2, a, rfl⟩; simp
        · rw [hw1]; exact hpmrest
    | false =>
      have hw1 := set_status_successful_spec_neg mA now true w hIdx t0 ht0 hts0 hp
      have hnpm1 : ¬ predMarked [] (w.tasks.set hIdx (markSuccess now t0)) := by
        intro hpm1
        rw [(stageSuccessPred_iff_predMarked _).mpr hpm1] at hp
        cases hp
      have hval1 : ∀ j ∈ rest, ∃ t,
          (set_status mA now true w hIdx .successful).tasks[j]? = some t ∧
          t._status ≠ .successful := by
        intro j hj
        have hne : hIdx ≠ j := fun hEq => hnotmem (hEq ▸ hj)
        obtain ⟨t, ht, hts⟩ := hval j (List.mem_cons_of_mem _ hj)
        exact ⟨t, by rw [hw1]; simpa [List.getElem?_set_ne hne] using ht, hts⟩
      have ihres := ih (set_status mA now true w hIdx .successful) hval1 hndr
      constructor
      · intro hnp
        have hnprest : ¬ predMarked rest (w.tasks.set hIdx (markSuccess now t0)) :=
          fun hrest => hnp (hbr.mpr hrest)
        rw [happ, ihres.1 (by rw [hw1]; exact hnprest), hw1]
      · intro _ hpm
        have hpmrest := hbr.mp hpm
        rcases List.eq_nil_or_concat rest with rfl | hne2
        · exact absurd hpmrest hnpm1
        · rw [happ]
          refine ihres.2 ?_ ?_
          · rcases hne2 with ⟨l2, a, rfl⟩; simp
          · rw [hw1]
            exact hpmrest

theorem mem_set_cases {ts : List Task} {i : Nat} {x t : Task} (h : t ∈ ts.set i x) :
    t = x ∨ t ∈ ts := by
  rcases List.mem_iff_getElem?.mp h with ⟨j, hj⟩
  rw [List.getElem?_set] at hj
  rcases eq_or_ne i j with rfl | hne
  · simp only [if_pos rfl] at hj
    by_cases hlt : i < ts.length
    · rw [if_pos hlt] at hj
      cases hj
      exact Or.inl rfl
    · rw [if_neg hlt] at hj
      cases hj
  · rw [if_neg hne] at hj
    exact Or.inr (List.mem_iff_getElem?.mpr ⟨j, hj⟩)

theorem reachable_finishedInv (mA : Nat) (w : World) (hr : ReachableW mA w) :
    ∀ t ∈ w.tasks, finishedInv mA t := by
  induction hr with
  | init ts hts =>
    intro t ht
    obtain ⟨h1, _, _, h4⟩ := hts t ht
    simp [finishedInv, h1, h4]
  | step w w2 hr hstep ih =>
    cases hstep with
    | to_waiting i t0 now wres h0 hs0 =>
      have hinv0 := ih t0 (List.mem_iff_getElem?.mpr ⟨i, h0⟩)
      have hfin0 : t0.finished_on = none := by
        simp only [finishedInv, hs0] at hinv0
        simpa using hinv0
      rw [set_status_waiting_spec mA now wres w i t0 h0 (by rw [hs0]; decide)]
      intro t ht
      rcases mem_set_cases ht with rfl | hmem
      · simp [finishedInv, hfin0]
      · exact ih t hmem
    | to_submitted i t0 now wres h0 hs0 =>
      have hinv0 := ih t0 (List.mem_iff_getElem?.mpr ⟨i, h0⟩)
      have hfin0 : t0.finished_on = none := by
        simp only [finishedInv, hs0] at hinv0
        simpa using hinv0
      rw [set_status_submitted_spec mA now wres w i t0 h0 (by rw [hs0]; decide)]
      intro t ht
      rcases mem_set_cases ht with rfl | hmem
      · simp [finishedInv, hfin0]
      · exact ih t hmem
    | to_successful i t0 now wres h0 hs0 =>
      have hv : t0._status ≠ .successful := by rw [hs0]; decide
      cases hp : stageSuccessPred (w.tasks.set i (markSuccess now t0)) with
      | true =>
        rw [set_status_successful_spec_pos mA now wres w i t0 h0 hv hp]
        intro t ht
        rcases mem_set_cases ht with rfl | hmem
        · simp [finishedInv, markSuccess]
        · exact ih t hmem
      | false =>
        rw [set_status_successful_spec_neg mA now wres w i t0 h0 hv hp]
        intro t ht
        rcases mem_set_cases ht with rfl | hmem
        · simp [finishedInv, markSuccess]
        · exact ih t hmem
    | to_failed i t0 now wres h0 hs0 =>
      have hinv0 := ih t0 (List.mem_iff_getElem?.mpr ⟨i, h0⟩)
      have hfin0 : t0.finished_on = none := by
        simp only [finishedInv, hs0] at hinv0
        simpa using hinv0
      have hv : t0._status ≠ .failed := by rw [hs0]; decide
      by_cases hm : t0.must_succeed = false
      · rw [set_status_failed_tolerated_spec mA now wres w i t0 h0 hv hm]
        intro t ht
        rcases mem_set_cases ht with rfl | hmem
        · simp [finishedInv, hm]
        · exact ih t hmem
      · have hm2 : t0.must_succeed = true := by
          cases hmt : t0.must_succeed
          · exact absurd hmt hm
          · rfl
        by_cases ha : t0.attempt < mA
        · rw [set_status_failed_retry_spec mA now wres w i t0 h0 hv hm2 ha]
          intro t ht
          rcases mem_set_cases ht with rfl | hmem
          · simp [finishedInv, hfin0]
          · exact ih t hmem
        · rw [set_status_failed_final_spec mA now wres w i t0 h0 hv hm2 ha]
          intro t ht
          rcases mem_set_cases ht with rfl | hmem
          · simp [finishedInv, Nat.le_of_not_lt ha]
          · exact ih t hmem

section GraphLemmas

variable {V : Type} [DecidableEq V]

theorem mem_expandChildren {g : V → List V} {s : Finset V} {v : V} :
    v ∈ expandChildren g s ↔ v ∈ s ∨ ∃ u ∈ s, v ∈ g u := by
  simp [expandChildren, Finset.mem_union, Finset.mem_biUnion, List.mem_toFinset]

theorem iterate_expand_subset_succ (g : V → List V) :
    ∀ (n : Nat) (s : Finset V), (expandChildren g)^[n] s ⊆ (expandChildren g)^[n + 1] s := by
  intro n
  induction n with
  | zero =>
    intro s
    exact Finset.subset_union_left
  | succ n ih =>
    intro s
    rw [Function.iterate_succ_apply, Function.iterate_succ_apply]
    exact ih (expandChildren g s)

theorem iterate_expand_mono_le (g : V → List V) (s : Finset V) {m n : Nat} (h : m ≤ n) :
    (expandChildren g)^[m] s ⊆ (expandChildren g)^[n] s := by
  induction n, h using Nat.le_induction with
  | base => exact fun x hx => hx
  | succ n hmn ih => exact ih.trans (iterate_expand_subset_succ g n s)

theorem reach_of_mem_iterate (g : V → List V) (t : V) :
    ∀ (n : Nat) (v : V), v ∈ (expandChildren g)^[n] ({t} : Finset V) → Reach g t v := by
  intro n
  induction n with
  | zero =>
    intro v hv
    rw [Function.iterate_zero_apply, Finset.mem_singleton] at hv
    exact hv ▸ Relation.ReflTransGen.refl
  | succ n ih =>
    intro v hv
    rw [Function.iterate_succ_apply'] at hv
    rcases mem_expandChildren.mp hv with hv1 | ⟨u, hu, hedge⟩
    · exact ih v hv1
    · exact Relation.ReflTransGen.tail (ih u hu) hedge

theorem exists_iterate_of_reach {g : V → List V} {t v : V} (h : Reach g t v) :
    ∃ n, v ∈ (expandChildren g)^[n] ({t} : Finset V) := by
  induction h with
  | refl => exact ⟨0, by simp⟩
  | tail hru hedge ih =>
    rcases ih with ⟨n, hn⟩
    refine ⟨n + 1, ?_⟩
    rw [Function.iterate_succ_apply']
    exact mem_expandChildren.mpr (Or.inr ⟨_, hn, hedge⟩)

theorem iterate_stab (f : Finset V → Finset V) (x : Finset V) (k : Nat)
    (h : f^[k + 1] x = f^[k] x) : ∀ n, k ≤ n → f^[n] x = f^[k] x := by
  intro n hn
  induction n, hn using Nat.le_induction with
  | base => rfl
  | succ n hkn ih =>
    rw [Function.iterate_succ_apply', ih]
    calc f (f^[k] x) = f^[k + 1] x := (Function.iterate_succ_apply' f k x).symm
      _ = f^[k] x := h

theorem exists_stab [Fintype V] (g : V → List V) (t : V) :
    ∃ k, k ≤ Fintype.card V ∧
      (expandChildren g)^[k + 1] ({t} : Finset V) =
        (expandChildren g)^[k] ({t} : Finset V) := by
  by_contra hcon
  push_neg at hcon
  have hgrow : ∀ k, k ≤ Fintype.card V →
      k + 1 ≤ ((expandChildren g)^[k] ({t} : Finset V)).card := by
    intro k
    induction k with
    | zero => intro _; simp
    | succ k ih =>
      intro hk
      have h1 := ih (Nat.le_of_succ_le hk)
      have hss : (expandChildren g)^[k] ({t} : Finset V) ⊂
          (expandChildren g)^[k + 1] ({t} : Finset V) :=
        Finset.ssubset_iff_subset_ne.mpr ⟨iterate_expand_subset_succ g k _,
          fun hEq => hcon k (Nat.le_of_succ_le hk) hEq.symm⟩
      exact Nat.succ_le_of_lt (Nat.lt_of_le_of_lt h1 (Finset.card_lt_card hss))
  have h2 := hgrow (Fintype.card V) (Nat.le_refl _)
  have hle := Finset.card_le_univ ((expandChildren g)^[Fintype.card V] ({t} : Finset V))
  omega

theorem mem_reachSet_iff [Fintype V] (g : V → List V) (t v : V) :
    v ∈ reachSet g t ↔ Reach g t v := by
  constructor
  · intro hv
    exact reach_of_mem_iterate g t (Fintype.card V) v hv
  · intro hr
    rcases exists_iterate_of_reach hr with ⟨n, hn⟩
    rcases exists_stab g t with ⟨k, hk, hstab⟩
    rcases Nat.le_total n (Fintype.card V) with hle | hge
    · exact iterate_expand_mono_le g _ hle hn
    · have h1 := iterate_stab (expandChildren g) ({t} : Finset V) k hstab n
        (Nat.le_trans hk hge)
      rw [h1] at hn
      exact iterate_expand_mono_le g _ hk hn

theorem mem_successors_iff [Fintype V] (g : V → List V) (t v : V) :
    v ∈ successors g t ↔ Reach g t v ∧ v ≠ t := by
  rw [successors, Finset.mem_erase, mem_reachSet_iff]
  exact and_comm

end GraphLemmas

/-! ## Claims -/

/-- C1: for every must-succeed Task, a `failed` dispatch while
`attempt < max_attempts` increments `attempt` by exactly one and re-queues
the Task by setting its status back to `no_attempt` through the same
`set_status` contract; the re-entrant transition adds no further effects
(the failed branch is not re-entered, only the two retry log lines appear),
`finished_on` is untouched and the Stage status is unchanged; after the
`k`-th such failure (`k < max_attempts`, starting from `attempt = 1`) the
attempt counter equals `k + 1`. -/
theorem C1_retry_requeues :
    (∀ (mA now : Nat) (wres : Bool) (w : World) (i : Nat) (t : Task),
      w.tasks[i]? = some t → t._status ≠ .failed → t.must_succeed = true →
      t.attempt < mA →
      set_status mA now wres w i .failed =
        { stageStatus := w.stageStatus,
          tasks := w.tasks.set i { t with _status := .no_attempt, attempt := t.attempt + 1 },
          effects := w.effects ++ [.logWarnAttemptFailed t.attempt mA, .logWarnPrintout] })
    ∧ (∀ (mA : Nat) (w : World) (i : Nat) (t : Task) (k : Nat),
      w.tasks[i]? = some t → t._status = .no_attempt → t.must_succeed = true →
      t.attempt = 1 → k < mA →
      (failTimes mA w i k).tasks[i]? =
        some { t with _status := .no_attempt, attempt := k + 1 }) :=
  ⟨fun mA now wres w i t h hv hm ha =>
    set_status_failed_retry_spec mA now wres w i t h hv hm ha,
   fun mA w i t k h hs hm ha hk => failTimes_attempt mA w i t h hs hm ha k hk⟩

theorem C1_witness :
    (failTimes 3
        { stageStatus := .no_attempt, tasks := [{ must_succeed := true }], effects := [] }
        0 2).tasks[0]? =
      some { must_succeed := true, _status := .no_attempt, attempt := 3 } :=
  C1_retry_requeues.2 3
    { stageStatus := .no_attempt, tasks := [{ must_succeed := true }], effects := [] }
    0 { must_succeed := true } 2 rfl rfl rfl rfl (by decide)


/-- C6: for every Task, assigning the Task's current status via `set_status`
is a no-op — the stored status, all timestamps, the stage status and the
effect trace (log entries) are unchanged and the dispatcher is not invoked;
a second identical assignment after any transition leaves the whole state
identical. -/
theorem C6_self_assignment_noop :
    (∀ (mA now : Nat) (wres : Bool) (w : World) (i : Nat) (t : Task),
      w.tasks[i]? = some t → set_status mA now wres w i t._status = w)
    ∧ (∀ (mA now now2 : Nat) (wres wres2 : Bool) (w : World) (i : Nat)
        (v : TaskStatus) (t2 : Task),
      (set_status mA now wres w i v).tasks[i]? = some t2 →
      set_status mA now2 wres2 (set_status mA now wres w i v) i t2._status
        = set_status mA now wres w i v) :=
  ⟨fun mA now wres w i t h => set_status_self mA now wres w i t h rfl,
   fun mA _ now2 _ wres2 w i v t2 h =>
    set_status_self mA now2 wres2 _ i t2 h rfl⟩

theorem C6_witness :
    ([] : List Task) = [] ∧
    set_status 3 0 true { stageStatus := .no_attempt, tasks := [{}], effects := [] } 0
      TaskStatus.no_attempt
      = { stageStatus := .no_attempt, tasks := [{}], effects := [] } :=
  ⟨rfl, C6_self_assignment_noop.1 3 0 true _ 0 {} rfl⟩

/-- C8: for every Task with `must_succeed = false`, a `failed` dispatch sets
`finished_on = now`, leaves the owning Stage's status unchanged, leaves
`attempt` unchanged and leaves the status at `failed` (the dispatcher makes
no further modification); the failure is still logged. -/
theorem C8_tolerated_failure_frame (mA now : Nat) (wres : Bool) (w : World) (i : Nat)
    (t : Task) (h : w.tasks[i]? = some t) (hv : t._status ≠ .failed)
    (hm : t.must_succeed = false) :
    set_status mA now wres w i .failed =
      { stageStatus := w.stageStatus,
        tasks := w.tasks.set i { t with _status := .failed, finished_on := some now },
        effects := w.effects ++ [.logWarnTolerated, .logWarnPrintout] } :=
  set_status_failed_tolerated_spec mA now wres w i t h hv hm

theorem C8_witness :
    (set_status 2 7 true
        { stageStatus := .running,
          tasks := [{ _status := .submitted, must_succeed := false }], effects := [] }
        0 .failed).stageStatus = .running := by
  rw [C8_tolerated_failure_frame 2 7 true
    { stageStatus := .running,
      tasks := [{ _status := .submitted, must_succeed := false }], effects := [] }
    0 { _status := .submitted, must_succeed := false } rfl (by decide) rfl]

/-- C7: for every Task with `must_succeed = true` whose attempt count reached
`max_attempts`, a `failed` dispatch records a bounded 60-unit wait for the
Task's stderr artifact path, proceeds identically whether or not the file
appeared (the wait result `wres` does not occur on the right-hand side),
then sets `finished_on = now` and the owning Stage's status to `failed`. -/
theorem C7_final_failure_waits_for_stderr (mA now : Nat) (wres : Bool) (w : World) (i : Nat)
    (t : Task) (h : w.tasks[i]? = some t) (hv : t._status ≠ .failed)
    (hm : t.must_succeed = true) (ha : ¬ t.attempt < mA) :
    set_status mA now wres w i .failed =
      { stageStatus := .failed,
        tasks := w.tasks.set i { t with _status := .failed, finished_on := some now },
        effects := w.effects ++ [.logWarnAttemptFailed t.attempt mA,
          .waitFile (output_stderr_path t) 60, .logWarnPrintout, .logErrorTooMany] } :=
  set_status_failed_final_spec mA now wres w i t h hv hm ha

theorem C7_witness :
    set_status 3 9 false
        { stageStatus := .running,
          tasks := [{ _status := .submitted,
                      must_succeed := true, attempt := 3, log_dir := "/log" }],
          effects := [] } 0 .failed =
      { stageStatus := .failed,
        tasks := [{ _status := .failed,
                    must_succeed := true, attempt := 3, log_dir := "/log",
                    finished_on := some 9 }],
        effects := [.logWarnAttemptFailed 3 3,
          .waitFile "/log/stderr_attempt3.txt" 60, .logWarnPrintout, .logErrorTooMany] } := by
  rw [C7_final_failure_waits_for_stderr 3 9 false
    { stageStatus := .running,
      tasks := [{ _status := .submitted,
                  must_succeed := true, attempt := 3, log_dir := "/log" }],
      effects := [] }
    0 { _status := .submitted, must_succeed := true, attempt := 3, log_dir := "/log" }
    rfl (by decide) rfl (by decide)]
  rfl

/-- C5 fails on the code: the `submitted` branch of the dispatcher
unconditionally sets the owning Stage's status to `running` (line 60),
even when the Stage already reached the terminal status `failed`.
Concretely, with the stage failed (its must-succeed task exhausted) and a
sibling task still `waiting`, dispatching `submitted` for the sibling moves
the Stage from `failed` back to `running`. -/
theorem C5_counterexample :
    wFailedStage.stageStatus = .failed ∧
    (set_status 3 2 true wFailedStage 1 .submitted).stageStatus = .running := by
  refine ⟨rfl, ?_⟩
  rw [set_status_submitted_spec 3 2 true wFailedStage 1 tMidflight rfl (by decide)]

/-- C5 (amended): a `submitted` dispatch sets the owning Stage's status to
`running` unconditionally — every time a Task reaches `submitted`, not only
the first time, and regardless of whether the Stage already holds a
terminal (`failed`/`successful`) status.  The dispatcher does not protect
Stage terminal statuses on the `submitted` branch. -/
theorem C5_amended_submitted_always_running (mA now : Nat) (wres : Bool) (w : World)
    (i : Nat) (t : Task) (h : w.tasks[i]? = some t) (hv : t._status ≠ .submitted) :
    (set_status mA now wres w i .submitted).stageStatus = .running := by
  rw [set_status_submitted_spec mA now wres w i t h hv]

theorem C5_witness :
    (set_status 3 2 true wFailedStage 1 .submitted).stageStatus = .running :=
  C5_amended_submitted_always_running 3 2 true wFailedStage 1 tMidflight rfl (by decide)

/-- C9: profile ingestion returns the empty result `{}` with no file access
(no wait, no read) when the Task is marked NOOP; and when the profile file
does not appear within the bounded wait it logs a warning and returns `{}`
as a normal value (`Except.ok`, never an error). -/
theorem C9_profile_noop_and_missing :
    (∀ (t : Task) (fa : Bool) (c : Except String ProfileData), t.NOOP = true →
      t.profile fa c = (.ok [], t, []))
    ∧ (∀ (t : Task) (c : Except String ProfileData), t.NOOP = false →
      t._cache_profile = none →
      t.profile false c =
        (.ok [], t, [.waitFile (output_profile_path t) 60, .logWarnProfileMissing])) := by
  constructor
  · intro t fa c h
    simp [Task.profile, h]
  · intro t c h hc
    simp [Task.profile, h, hc]

theorem C9_witness :
    Task.profile { NOOP := true } true (.ok [("wall_time", 1)]) = (.ok [], { NOOP := true }, [])
    ∧ Task.profile { log_dir := "/log" } false (.ok []) =
      (.ok [], { log_dir := "/log" },
        [.waitFile "/log/profile_attempt1.json" 60, .logWarnProfileMissing]) :=
  ⟨C9_profile_noop_and_missing.1 { NOOP := true } true _ rfl,
   C9_profile_noop_and_missing.2 { log_dir := "/log" } _ rfl rfl⟩

/-- C10: the status setter has no validity guard: for any value `v` distinct
from the current status it stores `v` and invokes the dispatcher exactly
once on the updated task; in particular a Task whose status is terminal
(`successful`) is moved to `waiting` by the same setter, and the dispatcher
runs for that change (it records `started_on`). -/
theorem C10_setter_unguarded :
    (∀ (mA now : Nat) (wres : Bool) (w : World) (i : Nat) (t : Task) (v : TaskStatus),
      w.tasks[i]? = some t → t._status ≠ v →
      set_status mA now wres w i v =
        task_status_changed mA now wres (w.setTask i { t with _status := v }) i v)
    ∧ set_status 5 9 true
        { stageStatus := .successful,
          tasks := [{ _status := .successful, successful := true, finished_on := some 3 }],
          effects := [] } 0 .waiting =
      { stageStatus := .successful,
        tasks := [{ _status := .waiting,
                    successful := true, finished_on := some 3, started_on := some 9 }],
        effects := [] } := by
  constructor
  · intro mA now wres w i t v h hv
    exact set_status_of_ne mA now wres w i t v h hv
  · rw [set_status_waiting_spec 5 9 true
      { stageStatus := .successful,
        tasks := [{ _status := .successful, successful := true, finished_on := some 3 }],
        effects := [] }
      0 { _status := .successful, successful := true, finished_on := some 3 } rfl (by decide)]
    rfl

theorem C10_witness :
    set_status 4 0 true { stageStatus := .no_attempt, tasks := [{}], effects := [] } 0
        .waiting =
      task_status_changed 4 0 true
        (World.setTask { stageStatus := .no_attempt, tasks := [{}], effects := [] } 0
          { ({} : Task) with _status := .waiting }) 0 .waiting :=
  C10_setter_unguarded.1 4 0 true
    { stageStatus := .no_attempt, tasks := [{}], effects := [] } 0 {} .waiting rfl (by decide)

/-- C2: a `successful` dispatch sets `task.successful = true` and
`finished_on = now` (the `markSuccess` update), and sets the owning Stage's
status to `successful` exactly when, at that moment, every Task in the
Stage is successful or tolerated (`stageSuccessPred`); otherwise the Stage
status is untouched.  The final Stage status is the same for every
completion order of the Stage's Tasks (any two permutations of the
completing indices agree). -/
theorem C2_stage_success_aggregation :
    (∀ (mA now : Nat) (wres : Bool) (w : World) (i : Nat) (t : Task),
      w.tasks[i]? = some t → t._status ≠ .successful →
      (stageSuccessPred (w.tasks.set i (markSuccess now t)) = true →
        set_status mA now wres w i .successful =
          { stageStatus := .successful,
            tasks := w.tasks.set i (markSuccess now t),
            effects := w.effects ++ if t.NOOP then [] else [.logInfoStatus] })
      ∧ (stageSuccessPred (w.tasks.set i (markSuccess now t)) = false →
        set_status mA now wres w i .successful =
          { stageStatus := w.stageStatus,
            tasks := w.tasks.set i (markSuccess now t),
            effects := w.effects ++ if t.NOOP then [] else [.logInfoStatus] }))
    ∧ (∀ (mA now : Nat) (L1 L2 : List Nat) (w : World), L1.Perm L2 →
      (∀ j ∈ L1, ∃ t, w.tasks[j]? = some t ∧ t._status ≠ .successful) → L1.Nodup →
      (applyAll mA now L1 w).stageStatus = (applyAll mA now L2 w).stageStatus) := by
  constructor
  · intro mA now wres w i t h hv
    exact ⟨set_status_successful_spec_pos mA now wres w i t h hv,
      set_status_successful_spec_neg mA now wres w i t h hv⟩
  · intro mA now L1 L2 w hperm hval hnd
    have hval2 : ∀ j ∈ L2, ∃ t, w.tasks[j]? = some t ∧ t._status ≠ .successful :=
      fun j hj => hval j (hperm.mem_iff.mpr hj)
    have hnd2 : L2.Nodup := hperm.nodup_iff.mp hnd
    have hch1 := applyAll_stage mA now L1 w hval hnd
    have hch2 := applyAll_stage mA now L2 w hval2 hnd2
    have hpmiff : predMarked L1 w.tasks ↔ predMarked L2 w.tasks :=
      ⟨predMarked_mono fun j hj => hperm.mem_iff.mp hj,
       predMarked_mono fun j hj => hperm.mem_iff.mpr hj⟩
    rcases Classical.em (predMarked L1 w.tasks) with hpm | hnpm
    · rcases List.eq_nil_or_concat L1 with rfl | hne1
      · rw [List.perm_nil.mp hperm.symm]
      · have hne1b : L1 ≠ [] := by rcases hne1 with ⟨l2, a, rfl⟩; simp
        have hne2b : L2 ≠ [] := fun hnil => hne1b (List.perm_nil.mp (hnil ▸ hperm))
        rw [hch1.2 hne1b hpm, hch2.2 hne2b (hpmiff.mp hpm)]
    · rw [hch1.1 hnpm, hch2.1 fun hpm2 => hnpm (hpmiff.mpr hpm2)]

theorem C2_witness :
    (applyAll 1 5 [0, 1]
        { stageStatus := .running,
          tasks := [{ _status := .submitted }, { _status := .submitted }],
          effects := [] }).stageStatus =
    (applyAll 1 5 [1, 0]
        { stageStatus := .running,
          tasks := [{ _status := .submitted }, { _status := .submitted }],
          effects := [] }).stageStatus :=
  C2_stage_success_aggregation.2 1 5 [0, 1] [1, 0]
    { stageStatus := .running,
      tasks := [{ _status := .submitted }, { _status := .submitted }],
      effects := [] }
    (List.Perm.swap 1 0 [])
    (by
      intro j hj
      rcases List.mem_cons.mp hj with rfl | hj2
      · exact ⟨{ _status := .submitted }, rfl, by decide⟩
      · rcases List.mem_cons.mp hj2 with rfl | hj3
        · exact ⟨{ _status := .submitted }, rfl, by decide⟩
        · cases hj3)
    (by decide)

/-- C3: in every world reachable by the external scheduler loop (tasks are
started from `no_attempt`, submitted from `waiting`, and completions are
reported on `submitted` tasks), every Task satisfies: `finished_on` is set
iff its status is `successful` or terminal `failed` (failed and tolerated,
or failed with attempts exhausted).  Moreover a dispatch to `waiting` or to
`no_attempt` never writes `finished_on` (the updated task keeps the old
value). -/
theorem C3_finished_iff_terminal :
    (∀ (mA : Nat) (w : World), ReachableW mA w → ∀ t ∈ w.tasks, finishedInv mA t)
    ∧ (∀ (mA now : Nat) (wres : Bool) (w : World) (i : Nat) (t : Task),
      w.tasks[i]? = some t → t._status ≠ .waiting →
      (set_status mA now wres w i .waiting).tasks[i]? =
        some { t with _status := .waiting, started_on := some now })
    ∧ (∀ (mA now : Nat) (wres : Bool) (w : World) (i : Nat) (t : Task),
      w.tasks[i]? = some t → t._status ≠ .no_attempt →
      (set_status mA now wres w i .no_attempt).tasks[i]? =
        some { t with _status := .no_attempt }) := by
  refine ⟨reachable_finishedInv, ?_, ?_⟩
  · intro mA now wres w i t h hv
    have hi : i < w.tasks.length := (List.getElem?_eq_some.mp h).1
    rw [set_status_waiting_spec mA now wres w i t h hv]
    simpa using List.getElem?_set_self hi
  · intro mA now wres w i t h hv
    have hi : i < w.tasks.length := (List.getElem?_eq_some.mp h).1
    rw [set_status_no_attempt_spec mA now wres w i t h hv]
    simpa using List.getElem?_set_self hi

theorem C3_witness :
    finishedInv 2 ({ must_succeed := true } : Task) :=
  C3_finished_iff_terminal.1 2
    { stageStatus := .no_attempt, tasks := [{ must_succeed := true }], effects := [] }
    (ReachableW.init [{ must_succeed := true }]
      (by
        intro t ht
        rcases List.mem_cons.mp ht with rfl | hnil
        · exact ⟨rfl, rfl, rfl, rfl⟩
        · cases hnil))
    { must_succeed := true } (List.mem_cons_self _ _)

/-- C4: `successors g t` is exactly the set of vertices transitively
reachable from `t` along child edges, excluding `t` itself (a set, so
descendants reachable by several paths are deduplicated); on the graph
with edges A→B, A→C, B→D it returns {B, C, D} for A and ∅ for the leaf D.
As a total function on finite graphs it terminates on every graph (DAG or
not), and being a pure function of `(g, t)` a second call returns the same
set. -/
theorem C4_successors_descendants :
    (∀ (V : Type) (d : DecidableEq V) (f : Fintype V) (g : V → List V) (t v : V),
      v ∈ @successors V d f g t ↔ (Reach g t v ∧ v ≠ t))
    ∧ successors exGraph 0 = {1, 2, 3}
    ∧ successors exGraph 3 = ∅
    ∧ successors exGraph 0 = successors exGraph 0 := by
  refine ⟨?_, by decide, by decide, rfl⟩
  intro V d f g t v
  exact @mem_successors_iff V d f g t v

theorem C4_witness :
    (1 : Fin 4) ∈ successors exGraph 0 ↔ (Reach exGraph 0 1 ∧ (1 : Fin 4) ≠ 0) :=
  C4_successors_descendants.1 (Fin 4) inferInstance inferInstance exGraph 0 1

end Cosmos
